import Mathlib

/-!
Verification of `persistence_diagrams.py` from the P-WL repository.

The file embeds, as Lean definitions, the functions that the claims are
about:

* `to_probability_distribution` (lines 34-60): converts a labelled
  persistence diagram into a discrete distribution over `C` label classes,
  weighted by squared persistence; numpy floats are idealised as rationals,
  and the numpy behaviour of division by zero (`0/0 = NaN`, `x/0 = ±inf`)
  is made explicit through the type `NpFloat`.  The two Python `assert`
  statements are modelled by an `Option` result (`none` = AssertionError).
* `kullback_leibler` and `jensen_shannon` (lines 63-88): divergences over
  real vectors, with `np.log` idealised as `Real.log`.
* `main` (lines 91-230): its control-flow skeleton, enough to settle the
  claims about the length assertion, the label-defaulting loop, the
  unconditional `raise 'heck'` after plotting, and the absence of any
  configuration-time validation of the iteration count.  External
  collaborators (graph reading, sklearn, matplotlib rendering) are out of
  scope per the specification and are assumed to succeed; what is modelled
  of the plotting loop is exactly its possible indexing failures.
-/

namespace PWL

/-- A persistence-diagram triple `(birth, death, classLabel)`; numpy floats
are idealised as rationals, the label is an integer as in the Python code
(the asserts check `c < C` and `c >= 0`). -/
abbrev Triple := ℚ × ℚ × ℤ

/-- A persistence diagram: the list of its triples, in order. -/
abbrev Diagram := List Triple

/-- An idealised numpy floating-point value: either an ordinary (rational)
value, or one of the special values produced by division by zero. -/
inductive NpFloat where
  | val (q : ℚ)
  | nan
  | inf
  | ninf
deriving DecidableEq, Repr

/-- Numpy division on idealised floats: `a / 0` is `NaN` for `a = 0`,
`inf` for `a > 0` and `-inf` for `a < 0`; otherwise exact division. -/
def npDiv (a b : ℚ) : NpFloat :=
  if b ≠ 0 then .val (a / b)
  else if a = 0 then .nan
  else if 0 < a then .inf
  else .ninf

/-- The accumulation loop of `to_probability_distribution`
(`persistence_diagrams.py` lines 47-54): for each triple `(x, y, c)` the
asserts `c < C` and `c >= 0` are checked (`none` models the raised
AssertionError), then `(y - x)^2` is added to bucket `c` of `P`. -/
def accumulate (C : ℕ) : List Triple → List ℚ → Option (List ℚ)
  | [], P => some P
  | (x, y, c) :: rest, P =>
    if c < (C : ℤ) ∧ 0 ≤ c then
      accumulate C rest (P.set c.toNat (P.getD c.toNat 0 + (y - x) ^ 2))
    else
      none

/-- `to_probability_distribution(persistence_diagram, C)`
(`persistence_diagrams.py` lines 34-60): accumulate squared persistence
into `C` buckets starting from `np.zeros(C)`, then divide elementwise by
the total `np.sum(P)`. -/
def to_probability_distribution (d : Diagram) (C : ℕ) : Option (List NpFloat) :=
  (accumulate C d (List.replicate C 0)).map fun P =>
    P.map fun a => npDiv a P.sum

/-- Total squared persistence of a diagram: `Σ (death - birth)^2`. -/
def totalPers (d : Diagram) : ℚ :=
  (d.map fun t => (t.2.1 - t.1) ^ 2).sum

/-- The squared persistence accumulated in bucket `j`: the sum of
`(death - birth)^2` over the triples whose class label is `j`. -/
def bucketSum (d : Diagram) (j : ℕ) : ℚ :=
  ((d.filter fun t => t.2.2 = (j : ℤ)).map fun t => (t.2.1 - t.1) ^ 2).sum

/-- `kullback_leibler(p, q)` (`persistence_diagrams.py` lines 63-74):
`np.sum(np.where(p != 0, p * np.log(q / p), 0))`.  `np.where` selects,
entrywise over the two equal-length vectors, `p * log(q / p)` where
`p ≠ 0` and `0` elsewhere; `np.log` is idealised as `Real.log`. -/
noncomputable def kullback_leibler (p q : List ℝ) : ℝ :=
  ((p.zip q).map fun t => if t.1 ≠ 0 then t.1 * Real.log (t.2 / t.1) else 0).sum

/-- The specification's description of the Kullback-Leibler computation:
the sum of `p[i] * log(q[i] / p[i])` over exactly those indices `i` where
`p[i] ≠ 0` (stated for comparison with `kullback_leibler`). -/
noncomputable def kl_support_sum (p q : List ℝ) : ℝ :=
  (((p.zip q).filter fun t => t.1 ≠ 0).map fun t => t.1 * Real.log (t.2 / t.1)).sum

/-- `jensen_shannon(p, q)` (`persistence_diagrams.py` lines 77-88):
`0.5 * (kullback_leibler(p, q) + kullback_leibler(q, p))`. -/
noncomputable def jensen_shannon (p q : List ℝ) : ℝ :=
  0.5 * (kullback_leibler p q + kullback_leibler q p)

/-- An input graph as `main` sees it: a vertex count and, when the graph
file carried a `label` vertex attribute, the per-vertex labels. -/
structure Graph where
  numVerts : ℕ
  labels : Option (List ℤ)
deriving DecidableEq, Repr

/-- The command-line configuration relevant to the claims.  The argparse
setup (`persistence_diagrams.py` lines 233-245) declares
`--num-iterations` with `type=int` and no range restriction, so any
integer — including a non-positive one — is accepted at configuration
time. -/
structure Args where
  numIterations : ℤ
deriving DecidableEq, Repr

/-- The inputs of one run of `main`: the graphs read from the files, the
label vector, the parsed arguments, and the per-iteration persistence
diagrams later retrieved from the transformer (an external result of the
`features` module, modelled abstractly as data). -/
structure MainInput where
  graphs : List Graph
  labels : List ℤ
  args : Args
  diagrams : List (ℕ × List Diagram)
deriving DecidableEq, Repr

/-- How a run of `main` ends.  `assertionError` is the failed
`assert len(graphs) == len(labels)` (line 105); `valueError` is
`np.zeros((len(graphs), args.num_iterations))` with a negative dimension
(line 124); `plotIndexError` is an out-of-range index inside the plotting
loop (lines 128-151); `heckTypeError` is the unconditional `raise 'heck'`
(line 155), a `TypeError` in Python 3 since a string is not an exception;
`finished` would be a normal return after the accuracy report
(line 230). -/
inductive Outcome where
  | assertionError
  | valueError
  | plotIndexError
  | heckTypeError
  | finished
deriving DecidableEq, Repr

/-- Observable trace of one run of `main`: the graphs after the
label-defaulting loop (lines 99-101), the argument passed to
`pwl.transform` when line 118 is reached (`none` when it is not), whether
execution ever reaches the cross-validation block (lines 157-230), and
the outcome. -/
structure RunTrace where
  graphsAfterDefault : List Graph
  transformArg : Option (List Graph)
  crossValidationRun : Bool
  outcome : Outcome
deriving DecidableEq, Repr

/-- The label-defaulting loop of `main` (lines 99-101): a graph without a
`label` vertex attribute gets the constant label `0` on every vertex; a
graph that has the attribute is left unchanged. -/
def setDefaultLabels (gs : List Graph) : List Graph :=
  gs.map fun g =>
    if g.labels = none then { g with labels := some (List.replicate g.numVerts 0) } else g

/-- Success condition of the plotting loop (lines 128-151), which is the
only part of the loop that can affect control flow: `y[index]` (line 132)
needs every diagram index of the iteration to be below the number of
labels, and `ax[iteration]` (line 151) is evaluated — only when some
diagram of the iteration is nonempty, since otherwise no histogram is
plotted — and needs the iteration key to be below the
`args.num_iterations + 1` subplot count.  The histogram contents
themselves only feed the external plotting library. -/
def plotLoopOk (numIterations : ℤ) (numLabels : ℕ) (diagrams : List (ℕ × List Diagram)) : Bool :=
  diagrams.all fun p =>
    decide (p.2.length ≤ numLabels) &&
    (p.2.all (fun pd => pd.isEmpty) || decide ((p.1 : ℤ) < numIterations + 1))

/-- Control-flow skeleton of `main` (`persistence_diagrams.py` lines
91-230).  In order: the graphs get default labels where absent (lines
99-101); `assert len(graphs) == len(labels)` (line 105) aborts on
mismatch; otherwise `pwl.transform` is invoked on the defaulted graphs
(line 118); `np.zeros((len(graphs), args.num_iterations))` (line 124)
raises `ValueError` for a negative iteration count; the plotting loop
(lines 128-151) runs; and immediately after `plt.show()` the statement
`raise 'heck'` (line 155) raises unconditionally, so the code from line
157 onwards — the cross-validation and accuracy reporting — is
unreachable in every branch.  External calls (graph reading, logging,
`LabelEncoder`, the transformer itself, the plot rendering) are assumed
to succeed, as the specification places them out of scope. -/
def main (inp : MainInput) : RunTrace :=
  let gs := setDefaultLabels inp.graphs
  if gs.length ≠ inp.labels.length then
    ⟨gs, none, false, .assertionError⟩
  else if inp.args.numIterations < 0 then
    ⟨gs, some gs, false, .valueError⟩
  else if plotLoopOk inp.args.numIterations inp.labels.length inp.diagrams then
    ⟨gs, some gs, false, .heckTypeError⟩
  else
    ⟨gs, some gs, false, .plotIndexError⟩

lemma sum_set (l : List ℚ) (i : ℕ) (a : ℚ) (h : i < l.length) :
    (l.set i a).sum = l.sum - l.getD i 0 + a := by
  induction l generalizing i with
  | nil => simp at h
  | cons x xs ih =>
    cases i with
    | zero => simp [List.set]; ring
    | succ n =>
      simp only [List.set, List.sum_cons, List.getD_cons_succ]
      rw [ih n (by simpa using h)]
      ring

lemma getD_set (l : List ℚ) (i j : ℕ) (a : ℚ) (hi : i < l.length) :
    (l.set i a).getD j 0 = if i = j then a else l.getD j 0 := by
  rw [List.getD_eq_getElem?_getD, List.getD_eq_getElem?_getD, List.getElem?_set]
  by_cases hij : i = j
  · simp [hij, hij ▸ hi]
  · simp [hij]

lemma bucketSum_cons (x y : ℚ) (c : ℤ) (rest : Diagram) (j : ℕ) :
    bucketSum ((x, y, c) :: rest) j =
      (if c = (j : ℤ) then (y - x) ^ 2 else 0) + bucketSum rest j := by
  by_cases hc : c = (j : ℤ) <;> simp [bucketSum, List.filter_cons, hc]

/-- A successful run of the accumulation loop adds the total squared
persistence of the diagram to the total mass of the bucket vector. -/
lemma accumulate_sum (C : ℕ) (d : Diagram) (P Q : List ℚ) (hP : P.length = C)
    (h : accumulate C d P = some Q) : Q.sum = P.sum + totalPers d := by
  induction d generalizing P with
  | nil =>
    simp only [accumulate] at h
    cases h
    simp [totalPers]
  | cons t rest ih =>
    obtain ⟨x, y, c⟩ := t
    simp only [accumulate] at h
    split at h
    · next hrange =>
      have hcC : c < (C : ℤ) := hrange.1
      have hc0 : (0 : ℤ) ≤ c := hrange.2
      have hlt : c.toNat < P.length := by
        rw [hP]; omega
      have := ih (P.set c.toNat (P.getD c.toNat 0 + (y - x) ^ 2))
        (by rw [List.length_set, hP]) h
      rw [this, sum_set P c.toNat _ hlt]
      simp [totalPers]
      ring
    · exact absurd h (by simp)

/-- Characterisation of the accumulation loop: when every class label is
in range, the run succeeds and bucket `j` of the result holds its initial
value plus the squared persistence of the triples labelled `j`. -/
lemma accumulate_eq (C : ℕ) (d : Diagram) (P : List ℚ) (hP : P.length = C)
    (h : ∀ t ∈ d, 0 ≤ t.2.2 ∧ t.2.2 < (C : ℤ)) :
    ∃ Q, accumulate C d P = some Q ∧ Q.length = C ∧
      ∀ j < C, Q.getD j 0 = P.getD j 0 + bucketSum d j := by
  induction d generalizing P with
  | nil =>
    exact ⟨P, rfl, hP, fun j _ => by simp [bucketSum]⟩
  | cons t rest ih =>
    obtain ⟨x, y, c⟩ := t
    obtain ⟨hc0', hcC'⟩ := h (x, y, c) (by simp)
    have hc0 : (0 : ℤ) ≤ c := hc0'
    have hcC : c < (C : ℤ) := hcC'
    have hrest : ∀ t ∈ rest, 0 ≤ t.2.2 ∧ t.2.2 < (C : ℤ) :=
      fun t ht => h t (by simp [ht])
    have hlt : c.toNat < P.length := by rw [hP]; omega
    obtain ⟨Q, hQ, hQlen, hQval⟩ :=
      ih (P.set c.toNat (P.getD c.toNat 0 + (y - x) ^ 2))
        (by rw [List.length_set, hP]) hrest
    refine ⟨Q, ?_, hQlen, ?_⟩
    · simp only [accumulate]
      rw [if_pos ⟨hcC, hc0⟩]
      exact hQ
    · intro j hj
      rw [hQval j hj, getD_set P c.toNat j _ hlt, bucketSum_cons]
      have hcj : c.toNat = j ↔ c = (j : ℤ) := by omega
      by_cases hcase : c = (j : ℤ)
      · have hcn : c.toNat = j := hcj.mpr hcase
        rw [if_pos hcn, if_pos hcase, hcn]
        ring
      · rw [if_neg (fun hh => hcase (hcj.mp hh)), if_neg hcase]; ring

/-- When every class label is in range, the accumulation loop started on
`np.zeros(C)` succeeds and produces exactly the vector of per-label
squared-persistence sums. -/
lemma accumulate_replicate (C : ℕ) (d : Diagram)
    (hc : ∀ t ∈ d, 0 ≤ t.2.2 ∧ t.2.2 < (C : ℤ)) :
    accumulate C d (List.replicate C 0) =
      some ((List.range C).map fun j => bucketSum d j) := by
  obtain ⟨Q, hQ, hQlen, hQval⟩ :=
    accumulate_eq C d (List.replicate C 0) (by simp) hc
  have hrep : ∀ j, (List.replicate C (0 : ℚ)).getD j 0 = 0 := by
    intro j
    rw [List.getD_eq_getElem?_getD, List.getElem?_replicate]
    by_cases hj : j < C <;> simp [hj]
  have hQeq : Q = (List.range C).map fun j => bucketSum d j := by
    apply List.ext_getElem (by simpa using hQlen)
    intro n h₁ h₂
    have hn : n < C := by simpa [hQlen] using h₁
    have := hQval n hn
    rw [hrep n, zero_add] at this
    rw [List.getD_eq_getElem?_getD, List.getElem?_eq_getElem h₁] at this
    rw [List.getElem_map, List.getElem_range]
    simpa using this
  rw [hQ, hQeq]

/-- The per-label squared-persistence sums add up to the total squared
persistence when every class label is in range. -/
lemma sum_bucketSum (C : ℕ) (d : Diagram)
    (hc : ∀ t ∈ d, 0 ≤ t.2.2 ∧ t.2.2 < (C : ℤ)) :
    ((List.range C).map fun j => bucketSum d j).sum = totalPers d := by
  have := accumulate_sum C d (List.replicate C 0) _ (by simp)
    (accumulate_replicate C d hc)
  simpa using this

/-- Core description of `to_probability_distribution` on a diagram with
in-range labels and nonzero total squared persistence: the result is the
length-`C` vector of normalised per-label squared persistences. -/
lemma to_probability_distribution_eq (d : Diagram) (C : ℕ)
    (hc : ∀ t ∈ d, 0 ≤ t.2.2 ∧ t.2.2 < (C : ℤ)) (ht : totalPers d ≠ 0) :
    to_probability_distribution d C =
      some ((List.range C).map fun j => NpFloat.val (bucketSum d j / totalPers d)) := by
  rw [to_probability_distribution, accumulate_replicate C d hc, Option.map_some']
  congr 1
  rw [List.map_map]
  apply List.map_congr_left
  intro j _
  simp only [Function.comp_apply]
  rw [sum_bucketSum C d hc, npDiv, if_pos ht]

lemma sum_map_ite (l : List (ℝ × ℝ)) (f : ℝ × ℝ → ℝ) :
    (l.map fun t => if t.1 ≠ 0 then f t else 0).sum
      = ((l.filter fun t => t.1 ≠ 0).map f).sum := by
  induction l with
  | nil => simp
  | cons x xs ih =>
    simp only [ne_eq, ite_not, List.map_cons, List.sum_cons, List.filter_cons,
      decide_not] at ih ⊢
    by_cases hx : x.1 = 0
    · simp [hx, ih]
    · simp [hx, ih]

lemma setDefaultLabels_length (gs : List Graph) :
    (setDefaultLabels gs).length = gs.length :=
  List.length_map gs _

lemma main_graphsAfterDefault (inp : MainInput) :
    (main inp).graphsAfterDefault = setDefaultLabels inp.graphs := by
  simp only [main]
  split
  · rfl
  · split
    · rfl
    · split <;> rfl

lemma main_transformArg (inp : MainInput) :
    (main inp).transformArg = none ∨
      (main inp).transformArg = some (setDefaultLabels inp.graphs) := by
  simp only [main]
  split
  · exact Or.inl rfl
  · split
    · exact Or.inr rfl
    · split
      · exact Or.inr rfl
      · exact Or.inr rfl

/-- C1: for a diagram whose class labels all lie in `[0, C)` and whose
total squared persistence is nonzero, `to_probability_distribution`
returns the length-`C` vector whose entry `c` is the sum of
`(death - birth)^2` over the triples labelled `c`, divided by the total
of those sums over all triples. -/
theorem toProb_normalised_buckets (d : Diagram) (C : ℕ)
    (hc : ∀ t ∈ d, 0 ≤ t.2.2 ∧ t.2.2 < (C : ℤ)) (ht : totalPers d ≠ 0) :
    to_probability_distribution d C =
      some ((List.range C).map fun j => NpFloat.val (bucketSum d j / totalPers d)) :=
  to_probability_distribution_eq d C hc ht

theorem toProb_normalised_buckets_witness :
    (∀ t ∈ ([(0, 1, 0), (0, 2, 1)] : Diagram), 0 ≤ t.2.2 ∧ t.2.2 < ((2 : ℕ) : ℤ)) ∧
    totalPers [(0, 1, 0), (0, 2, 1)] ≠ 0 ∧
    to_probability_distribution [(0, 1, 0), (0, 2, 1)] 2 =
      some ((List.range 2).map fun j =>
        NpFloat.val (bucketSum [(0, 1, 0), (0, 2, 1)] j / totalPers [(0, 1, 0), (0, 2, 1)])) :=
  ⟨by decide, by norm_num [totalPers], toProb_normalised_buckets _ 2 (by decide)
    (by norm_num [totalPers])⟩

/-- C2: on a degenerate diagram the code does NOT raise a
`DegenerateDiagram` error; `P / np.sum(P)` divides the all-zero bucket
vector by zero and `to_probability_distribution` returns normally with a
vector of NaN entries, both on the empty diagram and on a diagram whose
pairs all have zero persistence. -/
theorem toProb_degenerate_returns_nan :
    to_probability_distribution [] 2 = some [NpFloat.nan, NpFloat.nan] ∧
    to_probability_distribution [(1, 1, 0)] 2 = some [NpFloat.nan, NpFloat.nan] := by
  constructor <;>
    norm_num [to_probability_distribution, accumulate, npDiv, List.replicate]

/-- C3: on a non-degenerate diagram (some triple with `death ≠ birth`)
whose class labels all lie in `[0, C)`, the returned vector consists of
ordinary values that are all nonnegative and sum to `1`. -/
theorem toProb_valid_distribution (d : Diagram) (C : ℕ)
    (hc : ∀ t ∈ d, 0 ≤ t.2.2 ∧ t.2.2 < (C : ℤ))
    (hnd : ∃ t ∈ d, t.2.1 ≠ t.1) :
    ∃ l : List ℚ, to_probability_distribution d C = some (l.map NpFloat.val) ∧
      (∀ q ∈ l, 0 ≤ q) ∧ l.sum = 1 := by
  have hpos : 0 < totalPers d := by
    obtain ⟨t, htmem, htne⟩ := hnd
    have h1 : 0 < (t.2.1 - t.1) ^ 2 :=
      pow_two_pos_of_ne_zero (sub_ne_zero.mpr htne)
    have hle : (t.2.1 - t.1) ^ 2 ≤ totalPers d := by
      apply List.single_le_sum
      · intro z hz
        obtain ⟨u, _, rfl⟩ := List.mem_map.mp hz
        positivity
      · exact List.mem_map_of_mem _ htmem
    linarith
  refine ⟨(List.range C).map fun j => bucketSum d j / totalPers d, ?_, ?_, ?_⟩
  · rw [to_probability_distribution_eq d C hc (ne_of_gt hpos), List.map_map]
    rfl
  · intro q hq
    obtain ⟨j, _, rfl⟩ := List.mem_map.mp hq
    have hbn : 0 ≤ bucketSum d j := by
      apply List.sum_nonneg
      intro z hz
      obtain ⟨u, _, rfl⟩ := List.mem_map.mp hz
      positivity
    exact div_nonneg hbn hpos.le
  · have hmul : ((List.range C).map fun j => bucketSum d j / totalPers d).sum
        = ((List.range C).map fun j => bucketSum d j).sum * (totalPers d)⁻¹ := by
      simp only [div_eq_mul_inv]
      exact List.sum_map_mul_right _ _ _
    rw [hmul, sum_bucketSum C d hc, mul_inv_cancel₀ (ne_of_gt hpos)]

theorem toProb_valid_distribution_witness :
    (∀ t ∈ ([(0, 1, 0)] : Diagram), 0 ≤ t.2.2 ∧ t.2.2 < ((1 : ℕ) : ℤ)) ∧
    (∃ t ∈ ([(0, 1, 0)] : Diagram), t.2.1 ≠ t.1) ∧
    (∃ l : List ℚ, to_probability_distribution [(0, 1, 0)] 1 = some (l.map NpFloat.val) ∧
      (∀ q ∈ l, 0 ≤ q) ∧ l.sum = 1) :=
  ⟨by decide, ⟨(0, 1, 0), by simp, by norm_num⟩,
    toProb_valid_distribution _ 1 (by decide) ⟨(0, 1, 0), by simp, by norm_num⟩⟩

/-- C10: `to_probability_distribution` does not depend on the order of
the triples: on any permutation of a diagram with in-range labels and
nonzero total squared persistence it returns the same vector. -/
theorem toProb_perm_invariant (d d₂ : Diagram) (C : ℕ) (hperm : d.Perm d₂)
    (hc : ∀ t ∈ d, 0 ≤ t.2.2 ∧ t.2.2 < (C : ℤ)) (ht : totalPers d ≠ 0) :
    to_probability_distribution d₂ C = to_probability_distribution d C := by
  have hc₂ : ∀ t ∈ d₂, 0 ≤ t.2.2 ∧ t.2.2 < (C : ℤ) :=
    fun t htm => hc t (hperm.mem_iff.mpr htm)
  have htot : totalPers d₂ = totalPers d := by
    unfold totalPers
    exact ((hperm.map _).sum_eq).symm
  have hbucket : ∀ j, bucketSum d₂ j = bucketSum d j := by
    intro j
    unfold bucketSum
    exact ((List.Perm.map _ (hperm.filter _)).sum_eq).symm
  rw [to_probability_distribution_eq d C hc ht,
    to_probability_distribution_eq d₂ C hc₂ (by rw [htot]; exact ht)]
  simp [hbucket, htot]

theorem toProb_perm_invariant_witness :
    (([(0, 1, 0), (0, 2, 0)] : Diagram).Perm [(0, 2, 0), (0, 1, 0)]) ∧
    (∀ t ∈ ([(0, 1, 0), (0, 2, 0)] : Diagram), 0 ≤ t.2.2 ∧ t.2.2 < ((1 : ℕ) : ℤ)) ∧
    totalPers [(0, 1, 0), (0, 2, 0)] ≠ 0 ∧
    to_probability_distribution [(0, 2, 0), (0, 1, 0)] 1 =
      to_probability_distribution [(0, 1, 0), (0, 2, 0)] 1 :=
  ⟨List.Perm.swap _ _ _, by decide, by norm_num [totalPers],
    toProb_perm_invariant _ _ 1 (List.Perm.swap _ _ _) (by decide)
      (by norm_num [totalPers])⟩

/-- C4: for equal-length vectors such that `q` is nonzero wherever `p`
is, `kullback_leibler p q` equals the sum of `p[i] * log(q[i] / p[i])`
over exactly the indices with `p[i] ≠ 0`, the remaining indices
contributing exactly `0`. -/
theorem kullback_leibler_support_sum (p q : List ℝ) (_hlen : p.length = q.length)
    (_hq : ∀ t ∈ p.zip q, t.1 ≠ 0 → t.2 ≠ 0) :
    kullback_leibler p q = kl_support_sum p q :=
  sum_map_ite (p.zip q) _

theorem kullback_leibler_support_sum_witness :
    ([(1 : ℝ), 0].length = [(1 : ℝ), 2].length) ∧
    (∀ t ∈ [(1 : ℝ), 0].zip [(1 : ℝ), 2], t.1 ≠ 0 → t.2 ≠ 0) ∧
    kullback_leibler [(1 : ℝ), 0] [(1 : ℝ), 2] = kl_support_sum [(1 : ℝ), 0] [(1 : ℝ), 2] := by
  refine ⟨rfl, ?_, kullback_leibler_support_sum _ _ rfl ?_⟩ <;>
    · intro t ht
      simp only [List.zip_cons_cons, List.zip_nil_right, List.mem_cons,
        List.not_mem_nil, or_false] at ht
      rcases ht with h | h <;> subst h <;> norm_num

/-- C5: `jensen_shannon` is symmetric in its two arguments for valid
probability distributions (equal length, mutually nonzero supports). -/
theorem jensen_shannon_symm (p q : List ℝ) (_hlen : p.length = q.length)
    (_hpq : ∀ t ∈ p.zip q, t.1 ≠ 0 → t.2 ≠ 0)
    (_hqp : ∀ t ∈ q.zip p, t.1 ≠ 0 → t.2 ≠ 0) :
    jensen_shannon p q = jensen_shannon q p := by
  unfold jensen_shannon
  ring

theorem jensen_shannon_symm_witness :
    ([(1 : ℝ)].length = [(1 : ℝ)].length) ∧
    (∀ t ∈ [(1 : ℝ)].zip [(1 : ℝ)], t.1 ≠ 0 → t.2 ≠ 0) ∧
    jensen_shannon [(1 : ℝ)] [(1 : ℝ)] = jensen_shannon [(1 : ℝ)] [(1 : ℝ)] := by
  have hmem : ∀ t ∈ [(1 : ℝ)].zip [(1 : ℝ)], t.1 ≠ 0 → t.2 ≠ 0 := by
    intro t ht
    simp only [List.zip_cons_cons, List.zip_nil_right, List.mem_cons,
      List.not_mem_nil, or_false] at ht
    subst ht
    norm_num
  exact ⟨rfl, hmem, jensen_shannon_symm _ _ rfl hmem hmem⟩

/-- C6: on every input that gets past the length assertion and completes
the plotting loop, `main` ends in the unconditional `raise 'heck'` — a
`TypeError` in Python 3 — immediately after `plt.show()`, and the
cross-validation and accuracy-reporting code (lines 157-230) is never
executed. -/
theorem main_raises_heck (inp : MainInput)
    (hlen : inp.graphs.length = inp.labels.length)
    (hn : 0 ≤ inp.args.numIterations)
    (hloop : plotLoopOk inp.args.numIterations inp.labels.length inp.diagrams = true) :
    (main inp).outcome = Outcome.heckTypeError ∧
      (main inp).crossValidationRun = false := by
  have h1 : (setDefaultLabels inp.graphs).length = inp.labels.length := by
    rw [setDefaultLabels_length]
    exact hlen
  simp only [main]
  rw [if_neg (by simp [h1]), if_neg (by omega), if_pos hloop]
  exact ⟨rfl, rfl⟩

theorem main_raises_heck_witness :
    (([⟨1, none⟩] : List Graph).length = [(0 : ℤ)].length) ∧
    ((0 : ℤ) ≤ 1) ∧
    plotLoopOk 1 [(0 : ℤ)].length [(0, [[(0, 1, 0)]])] = true ∧
    ((main ⟨[⟨1, none⟩], [0], ⟨1⟩, [(0, [[(0, 1, 0)]])]⟩).outcome = Outcome.heckTypeError ∧
      (main ⟨[⟨1, none⟩], [0], ⟨1⟩, [(0, [[(0, 1, 0)]])]⟩).crossValidationRun = false) :=
  ⟨by decide, by decide, by decide,
    main_raises_heck ⟨[⟨1, none⟩], [0], ⟨1⟩, [(0, [[(0, 1, 0)]])]⟩
      (by decide) (by decide) (by decide)⟩

/-- C7 counterexample: with `--num-iterations 0` (a non-positive count)
and a matching graph/label pair, the run does not fail at configuration
time: `pwl.transform` is invoked. -/
theorem main_nonpositive_iterations_counterexample :
    ((0 : ℤ) ≤ 0) ∧
    (main ⟨[⟨1, none⟩], [0], ⟨0⟩, []⟩).transformArg.isSome = true := by
  constructor <;> decide

/-- C7 amended: no configuration-time validation of the iteration count
exists; for every configuration with a non-positive number of WL
iterations whose graph count matches its label count, the run proceeds
and `pwl.transform` is invoked (on the label-defaulted graphs). -/
theorem main_nonpositive_iterations_reach_transform (inp : MainInput)
    (_hn : inp.args.numIterations ≤ 0)
    (hlen : inp.graphs.length = inp.labels.length) :
    (main inp).transformArg = some (setDefaultLabels inp.graphs) := by
  have h1 : (setDefaultLabels inp.graphs).length = inp.labels.length := by
    rw [setDefaultLabels_length]
    exact hlen
  simp only [main]
  rw [if_neg (by simp [h1])]
  split
  · rfl
  · split <;> rfl

theorem main_nonpositive_iterations_reach_transform_witness :
    ((-2 : ℤ) ≤ 0) ∧
    (([⟨1, none⟩] : List Graph).length = [(7 : ℤ)].length) ∧
    (main ⟨[⟨1, none⟩], [7], ⟨-2⟩, []⟩).transformArg =
      some (setDefaultLabels [⟨1, none⟩]) :=
  ⟨by decide, by decide,
    main_nonpositive_iterations_reach_transform ⟨[⟨1, none⟩], [7], ⟨-2⟩, []⟩
      (by decide) (by decide)⟩

/-- C8: when the number of graphs differs from the number of labels, the
assertion at line 105 aborts `main` before `pwl.transform` is invoked,
so no feature matrix row is ever produced. -/
theorem main_length_mismatch_aborts (inp : MainInput)
    (h : inp.graphs.length ≠ inp.labels.length) :
    (main inp).outcome = Outcome.assertionError ∧
      (main inp).transformArg = none := by
  have h1 : (setDefaultLabels inp.graphs).length ≠ inp.labels.length := by
    rw [setDefaultLabels_length]
    exact h
  simp only [main]
  rw [if_pos h1]
  exact ⟨rfl, rfl⟩

theorem main_length_mismatch_aborts_witness :
    (([] : List Graph).length ≠ [(0 : ℤ)].length) ∧
    ((main ⟨[], [0], ⟨3⟩, []⟩).outcome = Outcome.assertionError ∧
      (main ⟨[], [0], ⟨3⟩, []⟩).transformArg = none) :=
  ⟨by decide, main_length_mismatch_aborts ⟨[], [0], ⟨3⟩, []⟩ (by decide)⟩

/-- C9: before the WL transformation begins, `main` gives every vertex of
a graph without a `label` attribute the constant label `0`, while graphs
that carry the attribute keep their labels unchanged; whenever
`pwl.transform` is invoked, its argument is exactly this defaulted graph
list. -/
theorem main_default_labels (inp : MainInput) (i : ℕ) (g : Graph)
    (hg : inp.graphs[i]? = some g) :
    (main inp).graphsAfterDefault[i]? =
      some ⟨g.numVerts, some (g.labels.getD (List.replicate g.numVerts 0))⟩ ∧
    ((main inp).transformArg = none ∨
      (main inp).transformArg = some ((main inp).graphsAfterDefault)) := by
  constructor
  · rw [main_graphsAfterDefault, setDefaultLabels, List.getElem?_map, hg, Option.map_some']
    obtain ⟨nv, lbls⟩ := g
    cases lbls with
    | none => simp
    | some l => simp
  · rcases main_transformArg inp with h | h
    · exact Or.inl h
    · exact Or.inr (by rw [h, main_graphsAfterDefault])

theorem main_default_labels_witness :
    (([⟨2, none⟩, ⟨1, some [4]⟩] : List Graph)[0]? = some ⟨2, none⟩) ∧
    ((main ⟨[⟨2, none⟩, ⟨1, some [4]⟩], [0, 1], ⟨3⟩, []⟩).graphsAfterDefault[0]? =
      some ⟨2, some (List.replicate 2 0)⟩ ∧
    ((main ⟨[⟨2, none⟩, ⟨1, some [4]⟩], [0, 1], ⟨3⟩, []⟩).transformArg = none ∨
      (main ⟨[⟨2, none⟩, ⟨1, some [4]⟩], [0, 1], ⟨3⟩, []⟩).transformArg =
        some ((main ⟨[⟨2, none⟩, ⟨1, some [4]⟩], [0, 1], ⟨3⟩, []⟩).graphsAfterDefault))) :=
  ⟨by decide, main_default_labels ⟨[⟨2, none⟩, ⟨1, some [4]⟩], [0, 1], ⟨3⟩, []⟩ 0 ⟨2, none⟩
    (by decide)⟩

end PWL
